import Mathlib

/-!
Verification of the race-report normalizer (`scripts/normalize.py`).

The script is a line-oriented two-state scanner plus one normalization
function.  We embed it shallowly: lines and fields are `List Char`, the
scanner state is a structure mirroring the three Python globals
(`in_data_race`, `fields`, `field`), fallible code (the `assert`
statements) returns `Option`, and the two `re.sub` calls are embedded as
total recursive functions over character lists.

Character classes (`\w`, `str.strip` whitespace) are modelled over the
ASCII range, which is the range the race detector's reports use.
-/

/-- Model of Python's `\w` word-character class (ASCII range):
letters, digits and underscore.  Used for the `\b` word boundary in
`re.sub(r'\b(by) goroutine [0-9]+(:)', ...)`. -/
def wordChar (c : Char) : Bool :=
  c.isAlpha || c.isDigit || c = '_'

/-- Model of Python `str.strip` whitespace (ASCII range):
space, tab, newline, carriage return, vertical tab, form feed. -/
def pyWS (c : Char) : Bool :=
  c = ' ' || c = '\t' || c = '\n' || c = '\r' || c = '\x0b' || c = '\x0c'

/-- `line.strip()`: remove leading and trailing whitespace. -/
def pyStrip (l : List Char) : List Char :=
  ((l.dropWhile pyWS).reverse.dropWhile pyWS).reverse

/-- Consume a literal prefix; `some r` leaves the remainder, `none` on
mismatch.  This is how all the anchored literal parts of the script's
regular expressions are modelled. -/
def dropLiteral : List Char → List Char → Option (List Char)
  | [], l => some l
  | _ :: _, [] => none
  | q :: qs, c :: cs => if c = q then dropLiteral qs cs else none

/-- Maximal run of `[0-9]` digits at the front (the deterministic
semantics of a greedy `[0-9]+` that is followed by a non-digit literal). -/
def spanDigits : List Char → List Char × List Char
  | [] => ([], [])
  | c :: cs =>
    if c.isDigit then
      let p := spanDigits cs
      (c :: p.1, p.2)
    else ([], c :: cs)

/-- Consume the literal `':'` that closes the `by goroutine N:` pattern. -/
def colonTail (l : List Char) : Option (List Char) :=
  match l with
  | [] => none
  | c :: v => if c = ':' then some v else none

/-- The tail of the literal `by goroutine ` (everything after the `b`). -/
def bgLit : List Char := "y goroutine ".toList

/-- The literal `Goroutine ` opening the creation-trace fields. -/
def goroutineLit : List Char := "Goroutine ".toList

/-- The literal `Previous ` prefix checked on field 1. -/
def previousSp : List Char := "Previous ".toList

/-- The literal `Read ` prefix tested by the swap rule. -/
def readSp : List Char := "Read ".toList

/-- The literal `Write ` prefix asserted on field 0. -/
def writeSp : List Char := "Write ".toList

/-- The literal marker line `WARNING: DATA RACE`. -/
def warningLit : List Char := "WARNING: DATA RACE".toList

/-- The tail of the usage message `"%s: expect no arguments\n"`. -/
def usageTail : List Char := ": expect no arguments\n".toList

/-- `re.match` of a literal prefix against a string: true iff the string
starts with the literal. -/
def startsWith (p l : List Char) : Bool :=
  (dropLiteral p l).isSome

/-- `re.match(r'^Previous [rw]', f)`: `Previous ` followed by a lowercase
`r` or `w`. -/
def matchPreviousRW (l : List Char) : Bool :=
  match dropLiteral previousSp l with
  | none => false
  | some [] => false
  | some (c :: _) => c = 'r' || c = 'w'

/-- `f[0].upper() + f[1:]`: capitalize the first character. -/
def pyCapFirst : List Char → List Char
  | [] => []
  | c :: cs => c.toUpper :: cs

/-- Attempt to match `(by) goroutine [0-9]+(:)` at the head of the list
(the boundary `\b` is checked by the caller); on success return the
remainder after the colon. -/
def matchBG (l : List Char) : Option (List Char) :=
  match l with
  | [] => none
  | c :: rest =>
    if c = 'b' then
      match dropLiteral bgLit rest with
      | none => none
      | some u =>
        if (spanDigits u).1 = [] then none
        else colonTail (spanDigits u).2
    else none

/-- One left-to-right pass of `re.sub(r'\b(by) goroutine [0-9]+(:)',
r'\1\2', ...)`, fuelled by the length of the list.  `pw` records whether
the previous character was a word character (so `\b` holds iff `pw` is
false).  A replacement emits `by:` and resumes after the matched colon,
whose boundary flag is that of `':'`, i.e. false. -/
def subBGFuel : Nat → Bool → List Char → List Char
  | _, _, [] => []
  | 0, _, l => l
  | n + 1, pw, c :: rest =>
    if pw then c :: subBGFuel n (wordChar c) rest
    else
      match matchBG (c :: rest) with
      | some v => 'b' :: 'y' :: ':' :: subBGFuel n false v
      | none => c :: subBGFuel n (wordChar c) rest

/-- The `by goroutine` substitution starting with boundary flag `pw`. -/
def subBy (pw : Bool) (l : List Char) : List Char :=
  subBGFuel l.length pw l

/-- `re.sub(r'\b(by) goroutine [0-9]+(:)', r'\1\2', f)` on a whole field:
at the start of the string the preceding-word flag is false. -/
def reSubByGoroutine (l : List Char) : List Char :=
  subBy false l

/-- `re.sub(r'^(Goroutine) [0-9]+( )', r'\1\2', f)`: anchored at the
start, so it replaces at most once. -/
def reSubGoroutineId (l : List Char) : List Char :=
  match dropLiteral goroutineLit l with
  | none => l
  | some u =>
    if (spanDigits u).1 = [] then l
    else
      match (spanDigits u).2 with
      | [] => l
      | e :: v => if e = ' ' then goroutineLit ++ v else l

/-- `normalize_and_print_fields`, as a function from the four raw fields
to the mutated field list; `none` models a failed `assert` (the process
aborts before printing anything). -/
def normalizeFields (fs : List (List Char)) : Option (List (List Char)) :=
  match fs with
  | [f0, f1, f2, f3] =>
    if matchPreviousRW f1 then
      let f1c := pyCapFirst (List.drop 9 f1)
      let g := if startsWith readSp f0 then (f1c, f0, f3, f2) else (f0, f1c, f2, f3)
      if startsWith writeSp g.1 then
        some [reSubByGoroutine g.1, reSubByGoroutine g.2.1,
              reSubGoroutineId g.2.2.1, reSubGoroutineId g.2.2.2]
      else none
    else none
  | _ => none

/-- The printed record: fields joined by tabs, closed by the newline of
`print("")`. -/
def renderRecord (fs : List (List Char)) : List Char :=
  List.intercalate ['\t'] fs ++ ['\n']

/-- `re.match(r'^=+$', line)`: the block boundary marker. -/
def isBoundary (l : List Char) : Bool :=
  !(l = []) && l.all (fun c => c = '=')

/-- The scanner's mutable state: the three globals of the main loop. -/
structure ScanState where
  in_data_race : Bool
  fields : List (List Char)
  field : List Char
deriving DecidableEq, Repr

/-- The state before the first input line. -/
def initState : ScanState := { in_data_race := false, fields := [], field := [] }

/-- Processing of one raw input line by the main loop.  Returns `none`
when `normalize_and_print_fields` fails an assertion (the process
aborts), otherwise the new state and the records printed by this line. -/
def step (st : ScanState) (rawLine : List Char) : Option (ScanState × List (List Char)) :=
  let line := pyStrip rawLine
  if st.in_data_race then
    if isBoundary line then
      match normalizeFields (st.fields ++ [st.field]) with
      | none => none
      | some nf =>
        some ({ in_data_race := false, fields := nf, field := [] }, [renderRecord nf])
    else if line = warningLit then some (st, [])
    else if !(line = []) then
      some ({ st with field := if !(st.field = []) then st.field ++ ' ' :: line else line }, [])
    else
      some ({ st with fields := st.fields ++ [st.field], field := [] }, [])
  else
    if isBoundary line then
      some ({ in_data_race := true, fields := [], field := st.field }, [])
    else some (st, [])

/-- Result of running the loop: normal completion with a final state and
the printed records, or an abort that keeps the records already printed. -/
inductive RunResult where
  | ok : ScanState → List (List Char) → RunResult
  | aborted : List (List Char) → RunResult
deriving DecidableEq, Repr

/-- Run the main loop over a list of input lines. -/
def run (st : ScanState) : List (List Char) → RunResult
  | [] => RunResult.ok st []
  | l :: ls =>
    match step st l with
    | none => RunResult.aborted []
    | some (st', out) =>
      match run st' ls with
      | RunResult.ok st₂ outs => RunResult.ok st₂ (out ++ outs)
      | RunResult.aborted outs => RunResult.aborted (out ++ outs)

/-- Observable outcome of one invocation: exit status, the records
written to standard output, and any usage message written to the error
stream. -/
structure Outcome where
  exitCode : Nat
  stdout : List (List Char)
  stderrUsage : List (List Char)
deriving DecidableEq, Repr

/-- Outcome of the no-argument path: exit 0 on normal completion, exit 1
on an uncaught `AssertionError`. -/
def runOutcome (input : List (List Char)) : Outcome :=
  match run initState input with
  | RunResult.ok _ out => { exitCode := 0, stdout := out, stderrUsage := [] }
  | RunResult.aborted out => { exitCode := 1, stdout := out, stderrUsage := [] }

/-- The whole program: `pn` is `sys.argv[0]`, `args` the remaining
arguments, `input` the lines of standard input.  With any argument the
script writes the usage line to stderr and exits 1 before reading any
input. -/
def mainProg (pn : List Char) (args : List (List Char)) (input : List (List Char)) : Outcome :=
  if args = [] then runOutcome input
  else { exitCode := 1, stdout := [], stderrUsage := [pn ++ usageTail] }

/-- Residual-match checker: true iff a left-to-right scan with initial
boundary flag `pw` finds no `\b(by) goroutine [0-9]+(:)` match anywhere
in the list. -/
def noMatchB (pw : Bool) : List Char → Bool
  | [] => true
  | c :: rest => (pw || (matchBG (c :: rest)).isNone) && noMatchB (wordChar c) rest

/-- The grammar violations of the spec's error taxonomy: wrong field
count, field 1 not `Previous r`/`Previous w`, or field 0 after the swap
step not starting with `Write `. -/
def violatesGrammar (fs : List (List Char)) : Bool :=
  match fs with
  | [f0, f1, _, _] =>
    !matchPreviousRW f1 ||
      !startsWith writeSp
        (if startsWith readSp f0 then pyCapFirst (List.drop 9 f1) else f0)
  | _ => true

/-! ### Basic facts about the literal and digit parsers -/

theorem dropLiteral_some : ∀ {p l r : List Char}, dropLiteral p l = some r → l = p ++ r := by
  intro p
  induction p with
  | nil => intro l r h; simp [dropLiteral] at h; simp [h]
  | cons q qs ih =>
    intro l r h
    cases l with
    | nil => simp [dropLiteral] at h
    | cons c cs =>
      simp only [dropLiteral] at h
      split_ifs at h with hc
      · subst hc
        simp [ih h]

theorem dropLiteral_self (p r : List Char) : dropLiteral p (p ++ r) = some r := by
  induction p with
  | nil => rfl
  | cons q qs ih => simp [dropLiteral, ih]

theorem dropLiteral_length {p l r : List Char} (h : dropLiteral p l = some r) :
    l.length = p.length + r.length := by
  rw [dropLiteral_some h, List.length_append]

theorem startsWith_iff {p l : List Char} : startsWith p l = true ↔ ∃ t, l = p ++ t := by
  constructor
  · intro h
    rw [startsWith, Option.isSome_iff_exists] at h
    obtain ⟨t, ht⟩ := h
    exact ⟨t, dropLiteral_some ht⟩
  · rintro ⟨t, rfl⟩
    rw [startsWith, dropLiteral_self]
    rfl

theorem spanDigits_cons_digit {c : Char} (h : c.isDigit = true) (cs : List Char) :
    spanDigits (c :: cs) = (c :: (spanDigits cs).1, (spanDigits cs).2) := by
  simp [spanDigits, h]

theorem spanDigits_cons_nondigit {c : Char} (h : c.isDigit = false) (cs : List Char) :
    spanDigits (c :: cs) = ([], c :: cs) := by
  simp [spanDigits, h]

theorem spanDigits_append (l : List Char) : (spanDigits l).1 ++ (spanDigits l).2 = l := by
  induction l with
  | nil => rfl
  | cons c cs ih =>
    cases h : c.isDigit
    · rw [spanDigits_cons_nondigit h]
      rfl
    · rw [spanDigits_cons_digit h]
      simpa using ih

theorem spanDigits_all (l : List Char) : (spanDigits l).1.all Char.isDigit = true := by
  induction l with
  | nil => rfl
  | cons c cs ih =>
    cases h : c.isDigit
    · rw [spanDigits_cons_nondigit h]
      rfl
    · rw [spanDigits_cons_digit h]
      simpa [h] using ih

theorem spanDigits_snd_head {l t : List Char} {e : Char} (h : (spanDigits l).2 = e :: t) :
    e.isDigit = false := by
  induction l with
  | nil => simp [spanDigits] at h
  | cons c cs ih =>
    cases hc : c.isDigit
    · rw [spanDigits_cons_nondigit hc] at h
      have h' : c :: cs = e :: t := h
      injection h' with h1 h2
      rw [← h1]
      exact hc
    · rw [spanDigits_cons_digit hc] at h
      exact ih h

theorem spanDigits_append_digits {ds : List Char} (h : ds.all Char.isDigit = true) :
    ∀ y : List Char, spanDigits (ds ++ y) = (ds ++ (spanDigits y).1, (spanDigits y).2) := by
  induction ds with
  | nil => intro y; simp
  | cons d ds ih =>
    intro y
    simp only [List.all_cons, Bool.and_eq_true] at h
    rw [List.cons_append, spanDigits_cons_digit h.1, ih h.2]
    simp

theorem colonTail_some {l v : List Char} (h : colonTail l = some v) : l = ':' :: v := by
  cases l with
  | nil => simp [colonTail] at h
  | cons c t =>
    simp only [colonTail] at h
    split_ifs at h with hc
    · subst hc
      simp only [Option.some.injEq] at h
      rw [h]

theorem colonTail_cons_ne {c : Char} (h : ¬(c = ':')) (t : List Char) :
    colonTail (c :: t) = none := by
  simp [colonTail, h]

/-! ### Step equations for the `by goroutine` substitution -/

theorem matchBG_eq (c : Char) (rest : List Char) :
    matchBG (c :: rest) =
      if c = 'b' then
        match dropLiteral bgLit rest with
        | none => none
        | some u =>
          if (spanDigits u).1 = [] then none
          else colonTail (spanDigits u).2
      else none := rfl

theorem matchBG_ne_b {c : Char} (h : ¬(c = 'b')) (rest : List Char) :
    matchBG (c :: rest) = none := by
  rw [matchBG_eq]
  simp [h]

theorem bgLit_length : bgLit.length = 12 := rfl

theorem matchBG_b_none {rest : List Char} (hd : dropLiteral bgLit rest = none) :
    matchBG ('b' :: rest) = none := by
  simp [matchBG_eq, hd]

theorem matchBG_b_some {rest u : List Char} (hd : dropLiteral bgLit rest = some u) :
    matchBG ('b' :: rest) =
      if (spanDigits u).1 = [] then none else colonTail (spanDigits u).2 := by
  simp [matchBG_eq, hd]

theorem matchBG_some_len {l v : List Char} (h : matchBG l = some v) :
    v.length < l.length := by
  cases l with
  | nil => simp [matchBG] at h
  | cons c rest =>
    by_cases hb : c = 'b'
    case neg => rw [matchBG_ne_b hb] at h; simp at h
    subst hb
    cases hd : dropLiteral bgLit rest with
    | none => rw [matchBG_b_none hd] at h; simp at h
    | some u =>
      rw [matchBG_b_some hd] at h
      split_ifs at h with hds
      have hu : (spanDigits u).2 = ':' :: v := colonTail_some h
      have h1 : rest.length = bgLit.length + u.length := dropLiteral_length hd
      have h2 : (spanDigits u).1.length + (spanDigits u).2.length = u.length := by
        rw [← List.length_append, spanDigits_append]
      rw [hu] at h2
      simp only [List.length_cons, bgLit_length] at h1 h2
      simp only [List.length_cons]
      omega

theorem subBGFuel_nil (n : Nat) (pw : Bool) : subBGFuel n pw [] = [] := by
  cases n <;> rfl

theorem subBGFuel_succ_true (n : Nat) (c : Char) (rest : List Char) :
    subBGFuel (n + 1) true (c :: rest) = c :: subBGFuel n (wordChar c) rest := rfl

theorem subBGFuel_succ_none {c : Char} {rest : List Char}
    (h : matchBG (c :: rest) = none) (n : Nat) :
    subBGFuel (n + 1) false (c :: rest) = c :: subBGFuel n (wordChar c) rest := by
  simp [subBGFuel, h]

theorem subBGFuel_succ_some {c : Char} {rest v : List Char}
    (h : matchBG (c :: rest) = some v) (n : Nat) :
    subBGFuel (n + 1) false (c :: rest) = 'b' :: 'y' :: ':' :: subBGFuel n false v := by
  simp [subBGFuel, h]

theorem subBGFuel_congr :
    ∀ (n m : Nat) (pw : Bool) (l : List Char),
      l.length ≤ n → l.length ≤ m → subBGFuel n pw l = subBGFuel m pw l := by
  intro n
  induction n with
  | zero =>
    intro m pw l hn _
    have : l = [] := List.eq_nil_of_length_eq_zero (Nat.le_zero.mp hn)
    subst this
    rw [subBGFuel_nil, subBGFuel_nil]
  | succ n ih =>
    intro m pw l hn hm
    cases l with
    | nil => rw [subBGFuel_nil, subBGFuel_nil]
    | cons c rest =>
      cases m with
      | zero => simp at hm
      | succ m =>
        simp only [List.length_cons] at hn hm
        have hr : rest.length ≤ n := by omega
        have hr2 : rest.length ≤ m := by omega
        cases pw with
        | true =>
          rw [subBGFuel_succ_true, subBGFuel_succ_true, ih m (wordChar c) rest hr hr2]
        | false =>
          cases hmb : matchBG (c :: rest) with
          | none =>
            rw [subBGFuel_succ_none hmb, subBGFuel_succ_none hmb,
              ih m (wordChar c) rest hr hr2]
          | some v =>
            have hv : v.length ≤ n := by
              have := matchBG_some_len hmb
              simp only [List.length_cons] at this
              omega
            have hv2 : v.length ≤ m := by
              have := matchBG_some_len hmb
              simp only [List.length_cons] at this
              omega
            rw [subBGFuel_succ_some hmb, subBGFuel_succ_some hmb, ih m false v hv hv2]

theorem subBy_nil (pw : Bool) : subBy pw [] = [] := rfl

theorem subBy_word (c : Char) (rest : List Char) :
    subBy true (c :: rest) = c :: subBy (wordChar c) rest := rfl

theorem subBy_nomatch {c : Char} {rest : List Char} (h : matchBG (c :: rest) = none)
    (pw : Bool) : subBy pw (c :: rest) = c :: subBy (wordChar c) rest := by
  cases pw with
  | true => rfl
  | false =>
    show subBGFuel (rest.length + 1) false (c :: rest) = _
    rw [subBGFuel_succ_none h]
    rfl

theorem subBy_replace {c : Char} {rest v : List Char} (h : matchBG (c :: rest) = some v) :
    subBy false (c :: rest) = 'b' :: 'y' :: ':' :: subBy false v := by
  show subBGFuel (rest.length + 1) false (c :: rest) = _
  rw [subBGFuel_succ_some h]
  have hv : v.length ≤ rest.length := by
    have := matchBG_some_len h
    simp only [List.length_cons] at this
    omega
  rw [subBGFuel_congr rest.length v.length false v hv (le_refl _)]
  rfl

theorem subBy_copy {c : Char} (h : ¬(c = 'b')) (pw : Bool) (rest : List Char) :
    subBy pw (c :: rest) = c :: subBy (wordChar c) rest :=
  subBy_nomatch (matchBG_ne_b h rest) pw

/-! ### Character classes and literal-prefix behaviour of the substitution -/

theorem wordChar_digit {c : Char} (h : c.isDigit = true) : wordChar c = true := by
  simp [wordChar, h]

theorem digit_ne_b {c : Char} (h : c.isDigit = true) : ¬(c = 'b') := by
  intro hc
  rw [hc] at h
  exact absurd h (by decide)

theorem subBy_bgLit (u : List Char) :
    subBy true (bgLit ++ u) = bgLit ++ subBy false u := by
  show subBy true ('y' :: ' ' :: 'g' :: 'o' :: 'r' :: 'o' :: 'u' :: 't' :: 'i' :: 'n' :: 'e' :: ' ' :: u)
      = 'y' :: ' ' :: 'g' :: 'o' :: 'r' :: 'o' :: 'u' :: 't' :: 'i' :: 'n' :: 'e' :: ' ' :: subBy false u
  rw [subBy_copy (show ¬(('y' : Char) = 'b') by decide)]
  rw [subBy_copy (show ¬((' ' : Char) = 'b') by decide)]
  rw [subBy_copy (show ¬(('g' : Char) = 'b') by decide)]
  rw [subBy_copy (show ¬(('o' : Char) = 'b') by decide)]
  rw [subBy_copy (show ¬(('r' : Char) = 'b') by decide)]
  rw [subBy_copy (show ¬(('o' : Char) = 'b') by decide)]
  rw [subBy_copy (show ¬(('u' : Char) = 'b') by decide)]
  rw [subBy_copy (show ¬(('t' : Char) = 'b') by decide)]
  rw [subBy_copy (show ¬(('i' : Char) = 'b') by decide)]
  rw [subBy_copy (show ¬(('n' : Char) = 'b') by decide)]
  rw [subBy_copy (show ¬(('e' : Char) = 'b') by decide)]
  rw [subBy_copy (show ¬((' ' : Char) = 'b') by decide)]
  rfl

theorem subBy_writeSp (t : List Char) (pw : Bool) :
    subBy pw (writeSp ++ t) = writeSp ++ subBy false t := by
  show subBy pw ('W' :: 'r' :: 'i' :: 't' :: 'e' :: ' ' :: t) = 'W' :: 'r' :: 'i' :: 't' :: 'e' :: ' ' :: subBy false t
  rw [subBy_copy (show ¬(('W' : Char) = 'b') by decide)]
  rw [subBy_copy (show ¬(('r' : Char) = 'b') by decide)]
  rw [subBy_copy (show ¬(('i' : Char) = 'b') by decide)]
  rw [subBy_copy (show ¬(('t' : Char) = 'b') by decide)]
  rw [subBy_copy (show ¬(('e' : Char) = 'b') by decide)]
  rw [subBy_copy (show ¬((' ' : Char) = 'b') by decide)]
  rfl

theorem subBy_readSp (t : List Char) (pw : Bool) :
    subBy pw (readSp ++ t) = readSp ++ subBy false t := by
  show subBy pw ('R' :: 'e' :: 'a' :: 'd' :: ' ' :: t) = 'R' :: 'e' :: 'a' :: 'd' :: ' ' :: subBy false t
  rw [subBy_copy (show ¬(('R' : Char) = 'b') by decide)]
  rw [subBy_copy (show ¬(('e' : Char) = 'b') by decide)]
  rw [subBy_copy (show ¬(('a' : Char) = 'b') by decide)]
  rw [subBy_copy (show ¬(('d' : Char) = 'b') by decide)]
  rw [subBy_copy (show ¬((' ' : Char) = 'b') by decide)]
  rfl

theorem subBy_digits :
    ∀ (ds : List Char), ¬(ds = []) → ds.all Char.isDigit = true →
      ∀ (r : List Char) (pw : Bool), subBy pw (ds ++ r) = ds ++ subBy true r := by
  intro ds
  induction ds with
  | nil => intro h; exact absurd rfl h
  | cons d ds ih =>
    intro _ hall r pw
    simp only [List.all_cons, Bool.and_eq_true] at hall
    rw [List.cons_append, subBy_copy (digit_ne_b hall.1), wordChar_digit hall.1]
    cases ds with
    | nil => simp
    | cons e es =>
      rw [ih (by simp) hall.2 r true]
      simp

theorem dropLiteral_none_subBy :
    ∀ (rest p : List Char) (pw : Bool),
      (∀ q ∈ p, ¬(q = 'b')) → dropLiteral p rest = none →
      dropLiteral p (subBy pw rest) = none := by
  intro rest
  induction rest with
  | nil =>
    intro p pw _ h
    cases p with
    | nil => simp [dropLiteral] at h
    | cons q qs => rw [subBy_nil]; rfl
  | cons c cs ih =>
    intro p pw hp h
    cases p with
    | nil => simp [dropLiteral] at h
    | cons q qs =>
      have hq : ¬(q = 'b') := hp q (by simp)
      by_cases hcq : c = q
      · subst hcq
        simp only [dropLiteral, if_pos] at h
        rw [subBy_copy hq]
        simp only [dropLiteral, if_pos]
        exact ih qs (wordChar c) (fun x hx => hp x (by simp [hx])) h
      · cases pw with
        | true =>
          rw [subBy_word]
          simp [dropLiteral, hcq]
        | false =>
          cases hm : matchBG (c :: cs) with
          | none =>
            rw [subBy_nomatch hm]
            simp [dropLiteral, hcq]
          | some v =>
            rw [subBy_replace hm]
            have hbq : ¬(('b' : Char) = q) := fun he => hq he.symm
            simp [dropLiteral, hbq]

/-! ### No match survives one pass of the substitution -/

theorem matchBG_none_subBy {rest : List Char} (h : matchBG ('b' :: rest) = none) :
    matchBG ('b' :: subBy true rest) = none := by
  cases hd : dropLiteral bgLit rest with
  | none =>
    exact matchBG_b_none (dropLiteral_none_subBy rest bgLit true (by decide) hd)
  | some u =>
    have hrest : rest = bgLit ++ u := dropLiteral_some hd
    subst hrest
    rw [subBy_bgLit, matchBG_b_some (dropLiteral_self bgLit (subBy false u))]
    rw [matchBG_b_some hd] at h
    by_cases hds : (spanDigits u).1 = []
    · cases u with
      | nil => rw [subBy_nil]; rfl
      | cons e t =>
        have he : e.isDigit = false := by
          cases hic : e.isDigit
          · rfl
          · rw [spanDigits_cons_digit hic] at hds
            simp at hds
        cases hm : matchBG (e :: t) with
        | none =>
          rw [subBy_nomatch hm, spanDigits_cons_nondigit he]
          rfl
        | some v =>
          rw [subBy_replace hm, spanDigits_cons_nondigit (show Char.isDigit 'b' = false by decide)]
          rfl
    · rw [if_neg hds] at h
      have key : subBy false u = (spanDigits u).1 ++ subBy true (spanDigits u).2 := by
        conv_lhs => rw [← spanDigits_append u]
        exact subBy_digits (spanDigits u).1 hds (spanDigits_all u) (spanDigits u).2 false
      rw [key, spanDigits_append_digits (spanDigits_all u)]
      rw [if_neg (by simp [hds])]
      cases hr2 : (spanDigits u).2 with
      | nil =>
        rw [subBy_nil]
        rfl
      | cons e t =>
        have he : e.isDigit = false := spanDigits_snd_head hr2
        have hecol : ¬(e = ':') := by
          intro hee
          rw [hr2, hee] at h
          simp [colonTail] at h
        rw [subBy_word, spanDigits_cons_nondigit he]
        exact colonTail_cons_ne hecol _

theorem noMatchB_nil (pw : Bool) : noMatchB pw [] = true := rfl

theorem noMatchB_cons (pw : Bool) (c : Char) (rest : List Char) :
    noMatchB pw (c :: rest)
      = ((pw || (matchBG (c :: rest)).isNone) && noMatchB (wordChar c) rest) := rfl

theorem subBy_of_noMatchB :
    ∀ (l : List Char) (pw : Bool), noMatchB pw l = true → subBy pw l = l := by
  intro l
  induction l with
  | nil => intro pw _; rfl
  | cons c rest ih =>
    intro pw h
    rw [noMatchB_cons] at h
    simp only [Bool.and_eq_true, Bool.or_eq_true, Option.isNone_iff_eq_none] at h
    obtain ⟨h1, h2⟩ := h
    cases pw with
    | true => rw [subBy_word, ih (wordChar c) h2]
    | false =>
      cases h1 with
      | inl hf => simp at hf
      | inr hm => rw [subBy_nomatch hm, ih (wordChar c) h2]

theorem noMatchB_subBy_bound :
    ∀ (n : Nat) (l : List Char) (pw : Bool), l.length ≤ n →
      noMatchB pw (subBy pw l) = true := by
  intro n
  induction n with
  | zero =>
    intro l pw h
    have : l = [] := List.eq_nil_of_length_eq_zero (Nat.le_zero.mp h)
    subst this
    rfl
  | succ n ih =>
    intro l pw h
    cases l with
    | nil => rfl
    | cons c rest =>
      simp only [List.length_cons] at h
      have hr : rest.length ≤ n := by omega
      cases pw with
      | true =>
        rw [subBy_word, noMatchB_cons]
        simp only [Bool.true_or, Bool.true_and]
        exact ih rest (wordChar c) hr
      | false =>
        cases hm : matchBG (c :: rest) with
        | none =>
          rw [subBy_nomatch hm, noMatchB_cons]
          simp only [Bool.false_or, Bool.and_eq_true, Option.isNone_iff_eq_none]
          constructor
          · by_cases hb : c = 'b'
            · subst hb
              exact matchBG_none_subBy hm
            · exact matchBG_ne_b hb _
          · exact ih rest (wordChar c) hr
        | some v =>
          rw [subBy_replace hm]
          have hv : v.length ≤ n := by
            have := matchBG_some_len hm
            simp only [List.length_cons] at this
            omega
          have hrec := ih v false hv
          have h1 : matchBG ('b' :: 'y' :: ':' :: subBy false v) = none := by
            apply matchBG_b_none
            rfl
          rw [noMatchB_cons, noMatchB_cons, noMatchB_cons, h1]
          simp only [Option.isNone_none, Bool.false_or, Bool.true_and,
            show wordChar 'b' = true from rfl, show wordChar 'y' = true from rfl,
            show wordChar ':' = false from rfl, Bool.true_or]
          exact hrec

theorem noMatchB_subBy (pw : Bool) (l : List Char) : noMatchB pw (subBy pw l) = true :=
  noMatchB_subBy_bound l.length l pw (le_refl _)

theorem subBy_idem (pw : Bool) (l : List Char) : subBy pw (subBy pw l) = subBy pw l :=
  subBy_of_noMatchB _ _ (noMatchB_subBy pw l)

/-! ### Scanner step and run lemmas -/

theorem step_outside_boundary {st : ScanState} (h1 : st.in_data_race = false)
    {l : List Char} (h2 : isBoundary (pyStrip l) = true) :
    step st l = some ({ in_data_race := true, fields := [], field := st.field }, []) := by
  simp [step, h1, h2]

theorem step_outside_other {st : ScanState} (h1 : st.in_data_race = false)
    {l : List Char} (h2 : isBoundary (pyStrip l) = false) :
    step st l = some (st, []) := by
  simp [step, h1, h2]

theorem step_inside_boundary_none {st : ScanState} (h1 : st.in_data_race = true)
    {l : List Char} (h2 : isBoundary (pyStrip l) = true)
    (h3 : normalizeFields (st.fields ++ [st.field]) = none) :
    step st l = none := by
  simp [step, h1, h2, h3]

theorem step_inside_boundary_some {st : ScanState} (h1 : st.in_data_race = true)
    {l : List Char} (h2 : isBoundary (pyStrip l) = true) {nf : List (List Char)}
    (h3 : normalizeFields (st.fields ++ [st.field]) = some nf) :
    step st l
      = some ({ in_data_race := false, fields := nf, field := [] }, [renderRecord nf]) := by
  simp [step, h1, h2, h3]

theorem step_inside_nonboundary {st : ScanState} (h1 : st.in_data_race = true)
    {l : List Char} (h2 : isBoundary (pyStrip l) = false) :
    ∃ st', step st l = some (st', []) ∧ st'.in_data_race = true := by
  by_cases h3 : pyStrip l = warningLit
  · exact ⟨st,
      by simp [step, h1, h3, show isBoundary warningLit = false from by decide], h1⟩
  · by_cases h4 : pyStrip l = []
    · exact ⟨{ st with fields := st.fields ++ [st.field], field := [] },
        by simp [step, h1, h4, show isBoundary ([] : List Char) = false from rfl,
          show ¬(warningLit = []) from by decide], h1⟩
    · exact ⟨{ st with
          field := if !(st.field = []) then st.field ++ ' ' :: pyStrip l else pyStrip l },
        by simp [step, h1, h2, h3, h4], h1⟩

theorem step_preserves_outside_empty {st st' : ScanState} {l : List Char}
    {out : List (List Char)} (h : step st l = some (st', out))
    (hinv : st.in_data_race = false → st.field = []) :
    st'.in_data_race = false → st'.field = [] := by
  cases hb : st.in_data_race with
  | false =>
    cases h2 : isBoundary (pyStrip l) with
    | true =>
      rw [step_outside_boundary hb h2] at h
      simp only [Option.some.injEq, Prod.mk.injEq] at h
      rw [← h.1]
      intro hcontra
      simp at hcontra
    | false =>
      rw [step_outside_other hb h2] at h
      simp only [Option.some.injEq, Prod.mk.injEq] at h
      rw [← h.1]
      exact hinv
  | true =>
    cases h2 : isBoundary (pyStrip l) with
    | true =>
      cases hnf : normalizeFields (st.fields ++ [st.field]) with
      | none =>
        rw [step_inside_boundary_none hb h2 hnf] at h
        simp at h
      | some nf =>
        rw [step_inside_boundary_some hb h2 hnf] at h
        simp only [Option.some.injEq, Prod.mk.injEq] at h
        rw [← h.1]
        intro _
        rfl
    | false =>
      obtain ⟨st₂, hs, hs2⟩ := step_inside_nonboundary hb h2
      rw [hs] at h
      simp only [Option.some.injEq, Prod.mk.injEq] at h
      rw [← h.1]
      intro hcontra
      rw [hs2] at hcontra
      simp at hcontra

theorem run_nil (st : ScanState) : run st [] = RunResult.ok st [] := rfl

theorem run_cons_abort {st : ScanState} {l : List Char} (h : step st l = none)
    (ls : List (List Char)) : run st (l :: ls) = RunResult.aborted [] := by
  simp [run, h]

theorem run_cons_ok_ok {st st' st₂ : ScanState} {l : List Char}
    {out outs : List (List Char)} {ls : List (List Char)}
    (h1 : step st l = some (st', out)) (h2 : run st' ls = RunResult.ok st₂ outs) :
    run st (l :: ls) = RunResult.ok st₂ (out ++ outs) := by
  simp [run, h1, h2]

theorem run_cons_ok_abort {st st' : ScanState} {l : List Char}
    {out outs : List (List Char)} {ls : List (List Char)}
    (h1 : step st l = some (st', out)) (h2 : run st' ls = RunResult.aborted outs) :
    run st (l :: ls) = RunResult.aborted (out ++ outs) := by
  simp [run, h1, h2]

theorem run_append_ok :
    ∀ (xs : List (List Char)) {st st₁ : ScanState} {o₁ : List (List Char)}
      (ys : List (List Char)) {st₂ : ScanState} {o₂ : List (List Char)},
      run st xs = RunResult.ok st₁ o₁ → run st₁ ys = RunResult.ok st₂ o₂ →
      run st (xs ++ ys) = RunResult.ok st₂ (o₁ ++ o₂) := by
  intro xs
  induction xs with
  | nil =>
    intro st st₁ o₁ ys st₂ o₂ h1 h2
    rw [run_nil] at h1
    simp only [RunResult.ok.injEq] at h1
    obtain ⟨rfl, rfl⟩ := h1
    simpa using h2
  | cons l xs ih =>
    intro st st₁ o₁ ys st₂ o₂ h1 h2
    cases hs : step st l with
    | none =>
      rw [run_cons_abort hs] at h1
      simp at h1
    | some p =>
      obtain ⟨st', out⟩ := p
      cases hr : run st' xs with
      | aborted outs =>
        rw [run_cons_ok_abort hs hr] at h1
        simp at h1
      | ok stm om =>
        rw [run_cons_ok_ok hs hr] at h1
        simp only [RunResult.ok.injEq] at h1
        obtain ⟨rfl, rfl⟩ := h1
        rw [List.cons_append, run_cons_ok_ok hs (ih ys hr h2)]
        simp [List.append_assoc]

theorem run_append_abort :
    ∀ (xs : List (List Char)) {st st₁ : ScanState} {o₁ : List (List Char)}
      (ys : List (List Char)) {o₂ : List (List Char)},
      run st xs = RunResult.ok st₁ o₁ → run st₁ ys = RunResult.aborted o₂ →
      run st (xs ++ ys) = RunResult.aborted (o₁ ++ o₂) := by
  intro xs
  induction xs with
  | nil =>
    intro st st₁ o₁ ys o₂ h1 h2
    rw [run_nil] at h1
    simp only [RunResult.ok.injEq] at h1
    obtain ⟨rfl, rfl⟩ := h1
    simpa using h2
  | cons l xs ih =>
    intro st st₁ o₁ ys o₂ h1 h2
    cases hs : step st l with
    | none =>
      rw [run_cons_abort hs] at h1
      simp at h1
    | some p =>
      obtain ⟨st', out⟩ := p
      cases hr : run st' xs with
      | aborted outs =>
        rw [run_cons_ok_abort hs hr] at h1
        simp at h1
      | ok stm om =>
        rw [run_cons_ok_ok hs hr] at h1
        simp only [RunResult.ok.injEq] at h1
        obtain ⟨rfl, rfl⟩ := h1
        rw [List.cons_append, run_cons_ok_abort hs (ih ys hr h2)]
        simp [List.append_assoc]

theorem run_outside_empty :
    ∀ (lines : List (List Char)) {st₀ st : ScanState} {outs : List (List Char)},
      run st₀ lines = RunResult.ok st outs →
      (st₀.in_data_race = false → st₀.field = []) →
      (st.in_data_race = false → st.field = []) := by
  intro lines
  induction lines with
  | nil =>
    intro st₀ st outs h hinv
    rw [run_nil] at h
    simp only [RunResult.ok.injEq] at h
    rw [← h.1]
    exact hinv
  | cons l ls ih =>
    intro st₀ st outs h hinv
    cases hs : step st₀ l with
    | none =>
      rw [run_cons_abort hs] at h
      simp at h
    | some p =>
      obtain ⟨st', out⟩ := p
      cases hr : run st' ls with
      | aborted o =>
        rw [run_cons_ok_abort hs hr] at h
        simp at h
      | ok stm om =>
        rw [run_cons_ok_ok hs hr] at h
        simp only [RunResult.ok.injEq] at h
        rw [← h.1]
        exact ih hr (step_preserves_outside_empty hs hinv)

theorem run_inside_noboundary :
    ∀ (body : List (List Char)) {st : ScanState}, st.in_data_race = true →
      body.all (fun l => !(isBoundary (pyStrip l))) = true →
      ∃ st', run st body = RunResult.ok st' [] ∧ st'.in_data_race = true := by
  intro body
  induction body with
  | nil => intro st h _; exact ⟨st, rfl, h⟩
  | cons l ls ih =>
    intro st h hall
    simp only [List.all_cons, Bool.and_eq_true, Bool.not_eq_true'] at hall
    obtain ⟨st₁, hs, h1⟩ := step_inside_nonboundary h hall.1
    obtain ⟨st', hr, h2⟩ := ih h1 hall.2
    refine ⟨st', ?_, h2⟩
    rw [run_cons_ok_ok hs hr]
    rfl

theorem violates_normalizeFields :
    ∀ {fs : List (List Char)}, violatesGrammar fs = true → normalizeFields fs = none := by
  intro fs h
  match fs with
  | [] => rfl
  | [_] => rfl
  | [_, _] => rfl
  | [_, _, _] => rfl
  | _ :: _ :: _ :: _ :: _ :: _ => rfl
  | [f0, f1, f2, f3] =>
    simp only [violatesGrammar, Bool.or_eq_true, Bool.not_eq_true'] at h
    cases h with
    | inl h1 => simp [normalizeFields, h1]
    | inr h2 =>
      by_cases hprw : matchPreviousRW f1 = true
      · by_cases hread : startsWith readSp f0 = true
        · rw [if_pos hread] at h2
          simp [normalizeFields, hprw, hread, h2]
        · rw [if_neg hread] at h2
          simp only [Bool.not_eq_true] at hread
          simp [normalizeFields, hprw, hread, h2]
      · simp only [Bool.not_eq_true] at hprw
        simp [normalizeFields, hprw]

/-! ### Characterization of the normalizer on the two swap branches -/

theorem reSubByGoroutine_eq (l : List Char) : reSubByGoroutine l = subBy false l := rfl

theorem normalizeFields_some_swap {f0 f1 f2 f3 : List Char} {out : List (List Char)}
    (hread : startsWith readSp f0 = true)
    (h : normalizeFields [f0, f1, f2, f3] = some out) :
    matchPreviousRW f1 = true ∧
    startsWith writeSp (pyCapFirst (List.drop 9 f1)) = true ∧
    out = [reSubByGoroutine (pyCapFirst (List.drop 9 f1)), reSubByGoroutine f0,
           reSubGoroutineId f3, reSubGoroutineId f2] := by
  by_cases hprw : matchPreviousRW f1 = true
  · by_cases hw : startsWith writeSp (pyCapFirst (List.drop 9 f1)) = true
    · refine ⟨hprw, hw, ?_⟩
      simp only [normalizeFields, hprw, hread, hw, if_true, Option.some.injEq] at h
      exact h.symm
    · exfalso
      simp only [Bool.not_eq_true] at hw
      simp [normalizeFields, hprw, hread, hw] at h
  · exfalso
    simp only [Bool.not_eq_true] at hprw
    simp [normalizeFields, hprw] at h

theorem normalizeFields_some_noswap {f0 f1 f2 f3 : List Char} {out : List (List Char)}
    (hread : startsWith readSp f0 = false)
    (h : normalizeFields [f0, f1, f2, f3] = some out) :
    matchPreviousRW f1 = true ∧
    startsWith writeSp f0 = true ∧
    out = [reSubByGoroutine f0, reSubByGoroutine (pyCapFirst (List.drop 9 f1)),
           reSubGoroutineId f2, reSubGoroutineId f3] := by
  by_cases hprw : matchPreviousRW f1 = true
  · by_cases hw : startsWith writeSp f0 = true
    · refine ⟨hprw, hw, ?_⟩
      simp only [normalizeFields, hprw, hread, hw, if_true, Bool.false_eq_true, ite_false,
        Option.some.injEq] at h
      exact h.symm
    · exfalso
      simp only [Bool.not_eq_true] at hw
      simp [normalizeFields, hprw, hread, hw] at h
  · exfalso
    simp only [Bool.not_eq_true] at hprw
    simp [normalizeFields, hprw] at h

theorem matchPreviousRW_cases {f1 : List Char} (h : matchPreviousRW f1 = true) :
    ∃ u, f1 = previousSp ++ u ∧ ∃ t, u = 'r' :: t ∨ u = 'w' :: t := by
  unfold matchPreviousRW at h
  cases hd : dropLiteral previousSp f1 with
  | none => rw [hd] at h; simp at h
  | some u =>
    rw [hd] at h
    cases u with
    | nil => simp at h
    | cons c t =>
      simp only [Bool.or_eq_true, decide_eq_true_eq] at h
      refine ⟨c :: t, dropLiteral_some hd, t, ?_⟩
      cases h with
      | inl hc => left; rw [hc]
      | inr hc => right; rw [hc]

theorem drop9_previousSp (u : List Char) : List.drop 9 (previousSp ++ u) = u := rfl

/-! ### The claims -/

/-- The example input block of section 8 of the specification. -/
def exampleInput : List (List Char) :=
  [ "==================".toList,
    "WARNING: DATA RACE".toList,
    "Read at 0x00c0001a0000 by goroutine 7:".toList,
    "  main.reader()".toList,
    "      /tmp/main.go:10".toList,
    "".toList,
    "Previous write at 0x00c0001a0000 by goroutine 6:".toList,
    "  main.writer()".toList,
    "      /tmp/main.go:20".toList,
    "".toList,
    "Goroutine 7 (running) created at:".toList,
    "  main.main()".toList,
    "      /tmp/main.go:5".toList,
    "".toList,
    "Goroutine 6 (finished) created at:".toList,
    "  main.main()".toList,
    "      /tmp/main.go:4".toList,
    "==================".toList ]

/-- The single output line the specification requires for that block. -/
def exampleOutputLine : List Char :=
  ("Write at 0x00c0001a0000 by: main.writer() /tmp/main.go:20\tRead at 0x00c0001a0000 by: main.reader() /tmp/main.go:10\tGoroutine (finished) created at: main.main() /tmp/main.go:4\tGoroutine (running) created at: main.main() /tmp/main.go:5\n").toList

set_option maxRecDepth 200000 in
/-- Claim C1: on the section-8 example block the program exits normally and
writes to standard output exactly the one specified line — write access
first, then read access, then the finished creation trace, then the running
one, goroutine ids removed, continuations space-joined, fields
tab-separated and newline-terminated. -/
theorem claim_C1 :
    mainProg [] [] exampleInput
      = { exitCode := 0, stdout := [exampleOutputLine], stderrUsage := [] } := by
  decide

/-- Claim C2: whenever raw field 0 starts with `Read ` and raw field 1 with
`Previous write`, a successful normalization emits the fields swapped:
output field 0 is the prefix-stripped, capitalized, id-stripped second
input field, output field 1 the id-stripped first, and the creation traces
are swapped alongside (output field 2 is the id-stripped fourth raw
field). -/
theorem claim_C2 :
    ∀ (f0 f1 f2 f3 : List Char) (out : List (List Char)),
      startsWith readSp f0 = true →
      startsWith ("Previous write".toList) f1 = true →
      normalizeFields [f0, f1, f2, f3] = some out →
      out = [reSubByGoroutine (pyCapFirst (List.drop 9 f1)), reSubByGoroutine f0,
             reSubGoroutineId f3, reSubGoroutineId f2] := by
  intro f0 f1 f2 f3 out h0 _ h
  exact (normalizeFields_some_swap h0 h).2.2

/-- Witness for C2 at a concrete swapped block. -/
theorem claim_C2_witness :
    (["Write at 0x2 by: w()".toList, "Read at 0x2 by: r()".toList,
      "Goroutine (finished) created at: d()".toList,
      "Goroutine (running) created at: c()".toList] : List (List Char))
      = [reSubByGoroutine (pyCapFirst (List.drop 9
            ("Previous write at 0x2 by goroutine 8: w()".toList))),
         reSubByGoroutine ("Read at 0x2 by goroutine 7: r()".toList),
         reSubGoroutineId ("Goroutine 8 (finished) created at: d()".toList),
         reSubGoroutineId ("Goroutine 7 (running) created at: c()".toList)] :=
  claim_C2 "Read at 0x2 by goroutine 7: r()".toList
    "Previous write at 0x2 by goroutine 8: w()".toList
    "Goroutine 7 (running) created at: c()".toList
    "Goroutine 8 (finished) created at: d()".toList _ (by decide) (by decide) (by decide)

/-- Claim C3: closing a block whose collected fields violate the grammar —
wrong field count, field 1 not `Previous r`/`Previous w`, or field 0 after
the swap step not starting with `Write ` — aborts the process with
non-zero status, emits no record for that block, and keeps the records of
earlier blocks. -/
theorem claim_C3 :
    ∀ (pn : List Char) (pre : List (List Char)) (st : ScanState)
      (outs : List (List Char)) (bLine : List Char) (ls : List (List Char)),
      run initState pre = RunResult.ok st outs → st.in_data_race = true →
      isBoundary (pyStrip bLine) = true →
      violatesGrammar (st.fields ++ [st.field]) = true →
      mainProg pn [] (pre ++ bLine :: ls)
        = { exitCode := 1, stdout := outs, stderrUsage := [] } := by
  intro pn pre st outs bLine ls hrun hin hb hviol
  have hstep := step_inside_boundary_none hin hb (violates_normalizeFields hviol)
  have habort := run_append_abort pre (bLine :: ls) hrun (run_cons_abort hstep ls)
  simp only [List.append_nil] at habort
  simp [mainProg, runOutcome, habort]

/-- Witness for C3: a block containing a single (empty) field aborts. -/
theorem claim_C3_witness :
    mainProg [] [] (["==".toList] ++ "==".toList :: [])
      = { exitCode := 1, stdout := [], stderrUsage := [] } :=
  claim_C3 [] ["==".toList] { in_data_race := true, fields := [], field := [] } []
    "==".toList [] (by decide) rfl (by decide) (by decide)

/-- Claim C4: a boundary line processed in the OUTSIDE_BLOCK state of any
reachable scanner state leaves the field list and field accumulator empty
and moves to INSIDE_BLOCK (the accumulator is already empty whenever the
scanner is outside a block). -/
theorem claim_C4 :
    ∀ (lines : List (List Char)) (st : ScanState) (outs : List (List Char))
      (line : List Char),
      run initState lines = RunResult.ok st outs → st.in_data_race = false →
      isBoundary (pyStrip line) = true →
      step st line = some ({ in_data_race := true, fields := [], field := [] }, []) := by
  intro lines st outs line hrun hout hb
  have hf : st.field = [] := run_outside_empty lines hrun (fun _ => rfl) hout
  rw [step_outside_boundary hout hb, hf]

/-- Witness for C4 at the initial state. -/
theorem claim_C4_witness :
    step initState ("=".toList)
      = some ({ in_data_race := true, fields := [], field := [] }, []) :=
  claim_C4 [] initState [] "=".toList rfl rfl (by decide)

set_option maxRecDepth 100000 in
/-- Counterexample to claim C5 as stated: the block below passes every
assertion, yet its emitted second field is `Rabbit`, which starts with
neither `Read ` nor `Write `. -/
theorem claim_C5_counterexample :
    normalizeFields ["Write at 0x1 by goroutine 1: m.f()".toList,
        "Previous rabbit".toList,
        "Goroutine 1 (running) created at: m.m()".toList,
        "Goroutine 2 (finished) created at: m.m()".toList]
      = some ["Write at 0x1 by: m.f()".toList, "Rabbit".toList,
        "Goroutine (running) created at: m.m()".toList,
        "Goroutine (finished) created at: m.m()".toList] ∧
    startsWith readSp ("Rabbit".toList) = false ∧
    startsWith writeSp ("Rabbit".toList) = false := by
  decide

/-- Claim C5 as amended: for every block on which no assertion fails, the
emitted first field starts with `Write `, and the emitted second field
starts with an uppercase `R` or `W` (the capitalized first letter of the
`Previous read`/`Previous write` field, or the swapped-in original `Read `
field); it never starts with `Previous `, `read ` or `write `.  (The code
does not guarantee the full words `Read `/`Write `: field 1 is only
checked to start with `Previous r` or `Previous w`.) -/
theorem claim_C5_amended :
    ∀ (f0 f1 f2 f3 : List Char) (out : List (List Char)),
      normalizeFields [f0, f1, f2, f3] = some out →
      ∃ g0 g1 g2 g3, out = [g0, g1, g2, g3] ∧
        startsWith writeSp g0 = true ∧
        (∃ t, g1 = 'R' :: t ∨ g1 = 'W' :: t) ∧
        startsWith previousSp g1 = false ∧
        startsWith ("read ".toList) g1 = false ∧
        startsWith ("write ".toList) g1 = false := by
  intro f0 f1 f2 f3 out h
  cases hread : startsWith readSp f0 with
  | true =>
    obtain ⟨hprw, hw, rfl⟩ := normalizeFields_some_swap hread h
    obtain ⟨t0, ht0⟩ := startsWith_iff.mp hw
    obtain ⟨t1, ht1⟩ := startsWith_iff.mp hread
    refine ⟨_, _, _, _, rfl, ?_, ?_, ?_, ?_, ?_⟩
    · rw [reSubByGoroutine_eq, ht0, subBy_writeSp]
      exact startsWith_iff.mpr ⟨_, rfl⟩
    · rw [reSubByGoroutine_eq, ht1, subBy_readSp]
      exact ⟨'e' :: 'a' :: 'd' :: ' ' :: subBy false t1, Or.inl rfl⟩
    · rw [reSubByGoroutine_eq, ht1, subBy_readSp]
      rfl
    · rw [reSubByGoroutine_eq, ht1, subBy_readSp]
      rfl
    · rw [reSubByGoroutine_eq, ht1, subBy_readSp]
      rfl
  | false =>
    obtain ⟨hprw, hw, rfl⟩ := normalizeFields_some_noswap hread h
    obtain ⟨t0, ht0⟩ := startsWith_iff.mp hw
    obtain ⟨u, hu, t, hut⟩ := matchPreviousRW_cases hprw
    have hdrop : List.drop 9 f1 = u := by rw [hu, drop9_previousSp]
    refine ⟨_, _, _, _, rfl, ?_, ?_, ?_, ?_, ?_⟩
    · rw [reSubByGoroutine_eq, ht0, subBy_writeSp]
      exact startsWith_iff.mpr ⟨_, rfl⟩
    · rw [hdrop]
      cases hut with
      | inl hr =>
        subst hr
        rw [show pyCapFirst ('r' :: t) = 'R' :: t from rfl, reSubByGoroutine_eq,
          subBy_copy (show ¬(('R' : Char) = 'b') from by decide)]
        exact ⟨_, Or.inl rfl⟩
      | inr hwv =>
        subst hwv
        rw [show pyCapFirst ('w' :: t) = 'W' :: t from rfl, reSubByGoroutine_eq,
          subBy_copy (show ¬(('W' : Char) = 'b') from by decide)]
        exact ⟨_, Or.inr rfl⟩
    · rw [hdrop]
      cases hut with
      | inl hr => subst hr; rfl
      | inr hwv => subst hwv; rfl
    · rw [hdrop]
      cases hut with
      | inl hr => subst hr; rfl
      | inr hwv => subst hwv; rfl
    · rw [hdrop]
      cases hut with
      | inl hr => subst hr; rfl
      | inr hwv => subst hwv; rfl

set_option maxRecDepth 100000 in
/-- Witness for the amended C5 at a concrete well-formed block. -/
theorem claim_C5_amended_witness :
    ∃ g0 g1 g2 g3,
      (["Write at 0x1 by: m.f()".toList, "Read at 0x2 by: m.g()".toList,
        "Goroutine (running) created at: m.m()".toList,
        "Goroutine (finished) created at: m.m()".toList] : List (List Char))
        = [g0, g1, g2, g3] ∧
      startsWith writeSp g0 = true ∧
      (∃ t, g1 = 'R' :: t ∨ g1 = 'W' :: t) ∧
      startsWith previousSp g1 = false ∧
      startsWith ("read ".toList) g1 = false ∧
      startsWith ("write ".toList) g1 = false :=
  claim_C5_amended "Write at 0x1 by goroutine 1: m.f()".toList
    "Previous read at 0x2 by goroutine 2: m.g()".toList
    "Goroutine 1 (running) created at: m.m()".toList
    "Goroutine 2 (finished) created at: m.m()".toList _ (by decide)

set_option maxRecDepth 100000 in
/-- Counterexample to claim C6 as stated: the goroutine-id-removal
substitution includes the anchored `Goroutine <digits> ` removal, and that
part is not idempotent — on `Goroutine 7 8 x` a first pass yields
`Goroutine 8 x` and a second pass strips again to `Goroutine x`; the same
happens when both substitutions are applied together. -/
theorem claim_C6_counterexample :
    ¬(reSubGoroutineId (reSubGoroutineId ("Goroutine 7 8 x".toList))
        = reSubGoroutineId ("Goroutine 7 8 x".toList)) ∧
    ¬(reSubGoroutineId (reSubByGoroutine
          (reSubGoroutineId (reSubByGoroutine ("Goroutine 7 8 x".toList))))
        = reSubGoroutineId (reSubByGoroutine ("Goroutine 7 8 x".toList))) := by
  decide

/-- Claim C6 as amended: the `by goroutine <digits>:` to `by:` substitution
is idempotent — for every input string, applying it twice yields the same
result as applying it once.  (The anchored leading `Goroutine <digits> `
removal is not idempotent in general, as the counterexample shows.) -/
theorem claim_C6_amended :
    ∀ l : List Char, reSubByGoroutine (reSubByGoroutine l) = reSubByGoroutine l :=
  fun l => subBy_idem false l

/-- Claim C7: with one or more command-line arguments the program writes
the one-line usage message to the error stream and exits with status 1,
writing nothing to standard output and ignoring the input entirely; with
zero arguments it processes standard input. -/
theorem claim_C7 :
    (∀ (pn : List Char) (args : List (List Char)) (input : List (List Char)),
      ¬(args = []) → mainProg pn args input
        = { exitCode := 1, stdout := [], stderrUsage := [pn ++ usageTail] }) ∧
    (∀ (pn : List Char) (input : List (List Char)),
      mainProg pn [] input = runOutcome input) := by
  constructor
  · intro pn args input h
    simp [mainProg, h]
  · intro pn input
    rfl

/-- Witness for C7 with one argument. -/
theorem claim_C7_witness :
    mainProg ('n' :: []) (("a".toList) :: []) []
      = { exitCode := 1, stdout := [], stderrUsage := [('n' :: []) ++ usageTail] } :=
  claim_C7.1 ('n' :: []) (("a".toList) :: []) [] (by decide)

/-- Claim C8: when the input ends while the scanner is inside a block (an
opened block whose remaining lines contain no closing boundary), the run
completes normally with exit status 0, the partial block produces no
record, and the records of the preceding complete blocks are exactly the
output. -/
theorem claim_C8 :
    ∀ (pn : List Char) (pre : List (List Char)) (bLine : List Char)
      (body : List (List Char)) (st₀ : ScanState) (outs : List (List Char)),
      run initState pre = RunResult.ok st₀ outs → st₀.in_data_race = false →
      isBoundary (pyStrip bLine) = true →
      body.all (fun l => !(isBoundary (pyStrip l))) = true →
      ∃ st', run initState (pre ++ bLine :: body) = RunResult.ok st' outs ∧
        st'.in_data_race = true ∧
        mainProg pn [] (pre ++ bLine :: body)
          = { exitCode := 0, stdout := outs, stderrUsage := [] } := by
  intro pn pre bLine body st₀ outs hrun hout hb hall
  have hstep := step_outside_boundary hout hb
  obtain ⟨st', hbody, hin⟩ := run_inside_noboundary body
    (show ({ in_data_race := true, fields := [], field := st₀.field } : ScanState).in_data_race
        = true from rfl) hall
  have h1 : run st₀ (bLine :: body) = RunResult.ok st' [] := by
    rw [run_cons_ok_ok hstep hbody]
    rfl
  have h2 := run_append_ok pre (bLine :: body) hrun h1
  simp only [List.append_nil] at h2
  exact ⟨st', h2, hin, by simp [mainProg, runOutcome, h2]⟩

/-- Witness for C8: one opening boundary followed by a non-boundary line. -/
theorem claim_C8_witness :
    ∃ st', run initState (([] : List (List Char)) ++ "==".toList :: ["x".toList])
        = RunResult.ok st' [] ∧
      st'.in_data_race = true ∧
      mainProg [] [] (([] : List (List Char)) ++ "==".toList :: ["x".toList])
        = { exitCode := 0, stdout := [], stderrUsage := [] } :=
  claim_C8 [] [] "==".toList ["x".toList] initState [] rfl rfl (by decide) (by decide)

/-- Claim C9: the scanner's field accumulator is empty in the initial
state, and whenever a run of the main loop ends in the OUTSIDE_BLOCK
state the accumulator is empty — so the code's not clearing it when a
block opens is behaviorally equivalent to clearing it. -/
theorem claim_C9 :
    initState.field = [] ∧
    ∀ (lines : List (List Char)) (st : ScanState) (outs : List (List Char)),
      run initState lines = RunResult.ok st outs → st.in_data_race = false →
      st.field = [] := by
  refine ⟨rfl, ?_⟩
  intro lines st outs h
  exact run_outside_empty lines h (fun _ => rfl)

/-- Witness for C9 after processing one non-boundary line. -/
theorem claim_C9_witness : initState.field = [] :=
  claim_C9.2 ["x".toList] initState [] (by decide) rfl

set_option maxRecDepth 100000 in
/-- Claim C10: the `by goroutine <digits>:` removal is global — after one
pass no occurrence of the pattern survives anywhere in the field (first
conjunct), and an occurrence inside the collapsed trace text is replaced
just like the leading one (second conjunct, with a second occurrence mid
string) — while the `Goroutine <digits> ` removal is anchored: it either
leaves the field unchanged or strips exactly one leading id (third
conjunct). -/
theorem claim_C10 :
    (∀ l : List Char, noMatchB false (reSubByGoroutine l) = true) ∧
    (reSubByGoroutine ("Write at 0x1 by goroutine 1: f() by goroutine 22: g()".toList)
      = "Write at 0x1 by: f() by: g()".toList) ∧
    (∀ l : List Char, reSubGoroutineId l = l ∨
      ∃ ds v, ¬(ds = []) ∧ ds.all Char.isDigit = true ∧
        l = goroutineLit ++ ds ++ ' ' :: v ∧
        reSubGoroutineId l = goroutineLit ++ v) := by
  refine ⟨fun l => noMatchB_subBy false l, by decide, ?_⟩
  intro l
  cases hd : dropLiteral goroutineLit l with
  | none =>
    left
    simp [reSubGoroutineId, hd]
  | some u =>
    by_cases hds : (spanDigits u).1 = []
    · left
      simp [reSubGoroutineId, hd, hds]
    · cases hsp : (spanDigits u).2 with
      | nil =>
        left
        simp [reSubGoroutineId, hd, hds, hsp]
      | cons e v =>
        by_cases he : e = ' '
        · right
          subst he
          have hu : u = (spanDigits u).1 ++ (' ' :: v) := by
            conv_lhs => rw [← spanDigits_append u]
            rw [hsp]
          refine ⟨(spanDigits u).1, v, hds, spanDigits_all u, ?_, ?_⟩
          · rw [dropLiteral_some hd]
            conv_lhs => rw [hu]
            rw [List.append_assoc]
          · simp [reSubGoroutineId, hd, hds, hsp]
        · left
          simp [reSubGoroutineId, hd, hds, hsp, he]
